import Mathlib

/-!
Verification development for the coffee-shop bookkeeping webhook
(`src/api/webhook.js`).  The JavaScript source is shallowly embedded:
JS numbers are modelled as exact rationals (`ℚ`), the regular-expression
heuristics are modelled as explicit character-list matchers with the same
alternation order, greediness and word-boundary semantics as the source
patterns, and the Google-Sheets side effects are modelled as the lists of
rows the code appends or updates.
-/

namespace Webhook

/-- JS `\w` (ASCII word character): letter, digit or underscore. -/
def isWordChar (c : Char) : Bool := c.isAlpha || c.isDigit || c = '_'

/-- JS `\s` as used here: space, tab, newline, carriage return. -/
def isSpaceChar (c : Char) : Bool := c = ' ' || c = '\t' || c = '\n' || c = '\r'

/-- Word-character test lifted to an optional character (string edges count
as non-word, as in the `\b` boundary rule). -/
def wordy : Option Char → Bool
  | some c => isWordChar c
  | none => false

/-- The character list of a string, lowercased (JS `toLowerCase()` on the
ASCII range). -/
def lowerData (s : String) : List Char := s.data.map Char.toLower

/-- JS `String.prototype.toLowerCase()` (ASCII range). -/
def jsToLower (s : String) : String := String.mk (lowerData s)

/-- JS `String.prototype.trim()`: strip leading and trailing whitespace. -/
def jsTrim (s : String) : String :=
  String.mk (((s.data.dropWhile isSpaceChar).reverse.dropWhile isSpaceChar).reverse)

/-- Match a literal sequence of characters at the head of the input,
returning the remaining input on success. -/
def matchLit : List Char → List Char → Option (List Char)
  | [], s => some s
  | _ :: _, [] => none
  | p :: ps, c :: s => if c = p then matchLit ps s else none

/-- Case-insensitive literal match (the pattern is given in lowercase,
the input keeps its original case). -/
def matchLitCI : List Char → List Char → Option (List Char)
  | [], s => some s
  | _ :: _, [] => none
  | p :: ps, c :: s => if c.toLower = p then matchLitCI ps s else none

/-- Scan all start positions left to right (as a JS regex engine does),
keeping track of the previous character for `\b` tests; return the first
position where the position-matcher succeeds. -/
def scanOpt {α : Type} (f : Option Char → List Char → Option α) :
    Option Char → List Char → Option α
  | prev, [] => f prev []
  | prev, c :: s =>
    match f prev (c :: s) with
    | some v => some v
    | none => scanOpt f (some c) s

/-- Boolean variant of `scanOpt` for pure `RegExp.test` patterns. -/
def scanB (f : Option Char → List Char → Bool) : Option Char → List Char → Bool
  | prev, [] => f prev []
  | prev, c :: s => f prev (c :: s) || scanB f (some c) s

/-- Try a list of literal alternatives in regex alternation order with a
boolean continuation; a failing continuation backtracks to the next
alternative, exactly as the source regex engine does. -/
def tryAltsB (alts : List (List Char)) (s : List Char) (k : List Char → Bool) : Bool :=
  alts.any (fun a =>
    match matchLit a s with
    | some r => k r
    | none => false)

/-- Alternation with an `Option`-valued continuation and backtracking. -/
def tryAltsO {α : Type} (alts : List (List Char)) (s : List Char)
    (k : List Char → Option α) : Option α :=
  match alts with
  | [] => none
  | a :: rest =>
    match matchLit a s with
    | some r =>
      match k r with
      | some v => some v
      | none => tryAltsO rest s k
    | none => tryAltsO rest s k

/-- Case-insensitive alternation with backtracking (for patterns matched
against the original-case text). -/
def tryAltsCI {α : Type} (alts : List (List Char)) (s : List Char)
    (k : List Char → Option α) : Option α :=
  match alts with
  | [] => none
  | a :: rest =>
    match matchLitCI a s with
    | some r =>
      match k r with
      | some v => some v
      | none => tryAltsCI rest s k
    | none => tryAltsCI rest s k

/-- Greedily read a run of decimal digits, returning its value, its length
and the rest of the input. -/
def takeDigits : List Char → ℕ → ℕ → ℕ × ℕ × List Char
  | c :: s, acc, n =>
    if c.isDigit then takeDigits s (acc * 10 + (c.toNat - 48)) (n + 1)
    else (acc, n, c :: s)
  | [], acc, n => (acc, n, [])

/-- The regex fragment `(\d+(?:\.\d+)?)\b` (used in the first paid-amount
pattern): greedy digits, an optional greedy fraction, then a word
boundary.  When the boundary after the fraction fails, the regex engine
backtracks by dropping the whole optional fraction, in which case the
boundary sits before the dot and always holds; shortening a digit run
instead always leaves a digit ahead and can never restore the boundary. -/
def matchNumB (s : List Char) : Option (ℚ × List Char) :=
  let (ip, n, r1) := takeDigits s 0 0
  if n = 0 then none
  else
    match r1 with
    | '.' :: r2 =>
      let (fp, m, r3) := takeDigits r2 0 0
      if m = 0 then some ((ip : ℚ), '.' :: r2)
      else if wordy r3.head? then some ((ip : ℚ), '.' :: r2)
      else some ((ip : ℚ) + (fp : ℚ) / 10 ^ m, r3)
    | _ => if wordy r1.head? then none else some ((ip : ℚ), r1)

/-- The regex fragment `(\d+(?:\.\d+)?)` with no trailing boundary (used in
the second paid-amount pattern). -/
def matchNumNB (s : List Char) : Option (ℚ × List Char) :=
  let (ip, n, r1) := takeDigits s 0 0
  if n = 0 then none
  else
    match r1 with
    | '.' :: r2 =>
      let (fp, m, r3) := takeDigits r2 0 0
      if m = 0 then some ((ip : ℚ), '.' :: r2)
      else some ((ip : ℚ) + (fp : ℚ) / 10 ^ m, r3)
    | _ => some ((ip : ℚ), r1)

/-- `\b(?:nothing|none|zero)\b` tail of the zero-payment pattern: one of
the nouns followed by a word boundary. -/
def matchNounZ (s : List Char) : Bool :=
  tryAltsB ["nothing".data, "none".data, "zero".data] s (fun r => !wordy r.head?)

/-- Alternatives of `(?:paid?|pay|pays|payment)` in regex order
(`paid?` greedily tries `paid` before `pai`). -/
def verbTokensZ : List (List Char) :=
  ["paid".data, "pai".data, "pay".data, "pays".data, "payment".data]

/-- One position of `/\b(?:paid?|pay|pays|payment)\s+(?:nothing|none|zero)\b/i`
(the text is already lowercased). -/
def zeroPhraseAt (prev : Option Char) (s : List Char) : Bool :=
  !wordy prev &&
    tryAltsB verbTokensZ s (fun r =>
      match r with
      | c :: r2 => isSpaceChar c && matchNounZ (r2.dropWhile isSpaceChar)
      | [] => false)

/-- One position of `/\bno payment\b/i` (on the lowercased text). -/
def noPaymentAt (prev : Option Char) (s : List Char) : Bool :=
  !wordy prev &&
    (match matchLit "no payment".data s with
     | some r => !wordy r.head?
     | none => false)

/-- The zero-payment test of `extractPaidAmount`:
`/\b(?:paid?|pay|pays|payment)\s+(?:nothing|none|zero)\b/i.test(text) || /\bno payment\b/i.test(text)`. -/
def zeroPaymentPhrase (text : String) : Bool :=
  scanB zeroPhraseAt none (lowerData text) || scanB noPaymentAt none (lowerData text)

/-- Alternatives of `(?:paid?|pay|pays|payment|gave|give|handed)`. -/
def verbTokensP1 : List (List Char) :=
  ["paid".data, "pai".data, "pay".data, "pays".data, "payment".data,
   "gave".data, "give".data, "handed".data]

/-- Alternatives of `(?:paid?|pay|pays)`. -/
def verbTokensP2 : List (List Char) := ["paid".data, "pai".data, "pay".data, "pays".data]

/-- Alternatives of `(?:aed|dhs?|dirhams?)` in regex order. -/
def curTokens : List (List Char) :=
  ["aed".data, "dhs".data, "dh".data, "dirhams".data, "dirham".data]

/-- The optional currency group `(?:aed|dhs?|dirhams?)?`: try the
alternatives greedily, then the empty match. -/
def tryCurrency {α : Type} (s : List Char) (k : List Char → Option α) : Option α :=
  match tryAltsO curTokens s k with
  | some v => some v
  | none => k s

/-- One position of
`/\b(?:paid?|pay|pays|payment|gave|give|handed)\s*(?:aed|dhs?|dirhams?)?\s*(\d+(?:\.\d+)?)\b/i`
on the lowercased text; returns the captured amount.  The `\s*` gaps are
taken greedily, which is exact here because none of the following tokens
can start with a space. -/
def pat1At (prev : Option Char) (s : List Char) : Option ℚ :=
  if wordy prev then none
  else
    tryAltsO verbTokensP1 s (fun r1 =>
      tryCurrency (r1.dropWhile isSpaceChar) (fun r2 =>
        (matchNumB (r2.dropWhile isSpaceChar)).map (·.1)))

/-- One position of
`/\b(\d+(?:\.\d+)?)\s*(?:aed|dhs?|dirhams?)?\s*(?:paid?|pay|pays)\b/i`
on the lowercased text; returns the captured amount. -/
def pat2At (prev : Option Char) (s : List Char) : Option ℚ :=
  if wordy prev then none
  else
    match matchNumNB s with
    | none => none
    | some (v, r1) =>
      tryCurrency (r1.dropWhile isSpaceChar) (fun r2 =>
        if tryAltsB verbTokensP2 (r2.dropWhile isSpaceChar) (fun r3 => !wordy r3.head?)
        then some v else none)

/-- `extractPaidAmount(text)`: returns `0` on a zero-payment phrasing,
otherwise the first numeric capture of the two payment patterns (the
captured string always parses to a finite number, so
`parseNumberOrNull(match[1])` never rejects a match). -/
def extractPaidAmount (text : String) : Option ℚ :=
  if zeroPaymentPhrase text then some 0
  else
    match scanOpt pat1At none (lowerData text) with
    | some v => some v
    | none => scanOpt pat2At none (lowerData text)

/-- `\bword\b` case-insensitive test for an all-word-character literal
(used for the `\blatte\b` and `\bmatcha\b` tests). -/
def testWord (w : String) (text : String) : Bool :=
  scanB (fun prev s =>
    !wordy prev &&
      (match matchLit (lowerData w) s with
       | some r => !wordy r.head?
       | none => false)) none (lowerData text)

/-- First character of the customer-name capture: `[a-z]` under the `/i`
flag, i.e. any ASCII letter. -/
def isNameStart (c : Char) : Bool := c.isAlpha

/-- The apostrophe character (code 39). -/
def apos : Char := Char.ofNat 39

/-- Remaining characters of the capture: the class `[a-z0-9'_-]` under `/i`. -/
def isNameChar (c : Char) : Bool :=
  c.isAlpha || c.isDigit || c = apos || c = '_' || c = '-'

/-- Greedy run of name-class characters. -/
def takeNameChars : List Char → List Char × List Char
  | c :: s =>
    if isNameChar c then
      let (run, rest) := takeNameChars s
      (c :: run, rest)
    else ([], c :: s)
  | [] => ([], [])

/-- Backtrack a greedy class run from its end until the trailing `\b`
holds (the run is given reversed); the name class contains the non-word
characters `-` and the apostrophe, so trailing ones are given back. -/
def shrinkRev : List Char → List Char → Option (List Char × List Char)
  | [], _ => none
  | c :: rs, rest =>
    if wordy (some c) != wordy rest.head? then some (c :: rs, rest)
    else shrinkRev rs (c :: rest)

/-- One position of `/\b(?:to|for)\s+([a-z][a-z0-9'_-]*)\b/i`, matched
against the original-case text so the capture keeps its case. -/
def nameAt (prev : Option Char) (s : List Char) : Option String :=
  if wordy prev then none
  else
    tryAltsCI ["to".data, "for".data] s (fun r =>
      match r with
      | c :: r2 =>
        if isSpaceChar c then
          match r2.dropWhile isSpaceChar with
          | c0 :: r4 =>
            if isNameStart c0 then
              let (run, rest) := takeNameChars r4
              match shrinkRev (c0 :: run).reverse rest with
              | some (rev, _) => some (String.mk rev.reverse)
              | none => none
            else none
          | [] => none
        else none
      | [] => none)

/-- `inferCustomerFromText(text)`: first match of
`/\b(?:to|for)\s+([a-z][a-z0-9'_-]*)\b/i`, returning the capture. -/
def inferCustomerFromText (text : String) : Option String :=
  scanOpt nameAt none text.data

/-- `capitalize`: `s.replace(/\b\w/g, c => c.toUpperCase())` — uppercase
every word character that sits at a word boundary. -/
def capAux : Option Char → List Char → List Char
  | _, [] => []
  | prev, c :: s =>
    (if isWordChar c && !wordy prev then c.toUpper else c) :: capAux (some c) s

/-- The `capitalize` utility of the source. -/
def capitalize (s : String) : String := String.mk (capAux none s.data)

/-- Optional exponent part of a JS number literal (`e`/`E`, optional sign,
digits); a malformed exponent is ignored, as `parseFloat` stops there. -/
def applyExp (q : ℚ) : List Char → ℚ
  | c :: rest =>
    if c = 'e' || c = 'E' then
      match rest with
      | '-' :: r2 =>
        let (e, k, _) := takeDigits r2 0 0
        if k = 0 then q else q / 10 ^ e
      | '+' :: r2 =>
        let (e, k, _) := takeDigits r2 0 0
        if k = 0 then q else q * 10 ^ e
      | r2 =>
        let (e, k, _) := takeDigits r2 0 0
        if k = 0 then q else q * 10 ^ e
    else q
  | [] => q

/-- Unsigned part of a JS `parseFloat` literal: digits with an optional
fraction (at least one digit on one side of the dot) and an optional
exponent. -/
def parseUnsigned (s : List Char) : Option ℚ :=
  let (ip, n, r1) := takeDigits s 0 0
  match r1 with
  | '.' :: r2 =>
    let (fp, m, r3) := takeDigits r2 0 0
    if n = 0 && m = 0 then none
    else some (applyExp ((ip : ℚ) + (fp : ℚ) / 10 ^ m) r3)
  | _ => if n = 0 then none else some (applyExp (ip : ℚ) r1)

/-- Model of JS `parseFloat` on finite decimal literals: skip leading
whitespace, optional sign, then the longest valid number prefix; `none`
models `NaN`.  (The `Infinity` production is not modelled; no code path
analysed here depends on it.) -/
def jsParseFloat (s : String) : Option ℚ :=
  match s.data.dropWhile isSpaceChar with
  | '-' :: rest => (parseUnsigned rest).map (fun q => -q)
  | '+' :: rest => parseUnsigned rest
  | t => parseUnsigned t

/-- `x || 0` on an optional number: `null`/`NaN` and `0` are falsy and give
`0`; used for `parseNumberOrNull(...) || 0` and `parseFloat(cell) || 0`. -/
def jsOr0 : Option ℚ → ℚ
  | some q => q
  | none => 0

/-- Split a (trimmed) string on whitespace runs, as
`String.prototype.split(/\s+/)` does on trimmed input; the empty string
yields `[""]`. -/
def wordsAux : List Char → List Char → List String
  | [], [] => []
  | [], acc => [String.mk acc.reverse]
  | c :: s, acc =>
    if isSpaceChar c then
      match acc with
      | [] => wordsAux s []
      | _ => String.mk acc.reverse :: wordsAux s []
    else wordsAux s (c :: acc)

/-- `trimmed.split(/\s+/)` for trimmed input. -/
def splitWs (s : String) : List String :=
  match wordsAux s.data [] with
  | [] => [""]
  | l => l

/-- `String.prototype.replace(pat, '')` with a string pattern: remove the
first occurrence of `pat`. -/
def replaceFirstAux (pat : List Char) : List Char → List Char
  | [] => []
  | c :: s =>
    match matchLit pat (c :: s) with
    | some rest => rest
    | none => c :: replaceFirstAux pat s

/-- Remove the first occurrence of `pat` from `s`. -/
def replaceFirst (pat : String) (s : String) : String :=
  String.mk (replaceFirstAux pat.data s.data)

/-! ### The menu (price catalog) -/

/-- A catalog entry: unit price (AED) and category. -/
structure MenuItem where
  price : ℚ
  category : String
deriving DecidableEq

/-- The `MENU` object of the source, as an association list in property
order. -/
def MENU : List (String × MenuItem) :=
  [("matcha latte", ⟨20, "Matcha"⟩),
   ("usucha matcha", ⟨20, "Matcha"⟩),
   ("coco matcha", ⟨25, "Matcha"⟩),
   ("salted cloudy matcha", ⟨25, "Matcha"⟩),
   ("matcha tonic", ⟨25, "Matcha"⟩),
   ("vietnamese coffee", ⟨20, "Coffee"⟩),
   ("espresso", ⟨20, "Coffee"⟩),
   ("americano", ⟨20, "Coffee"⟩),
   ("espresso/americano", ⟨20, "Coffee"⟩),
   ("cold brew", ⟨20, "Coffee"⟩),
   ("coco coolbrew", ⟨25, "Coffee"⟩),
   ("latte", ⟨25, "Coffee"⟩),
   ("espresso tonic", ⟨25, "Coffee"⟩),
   ("salted cloudy coffee", ⟨25, "Coffee"⟩)]

/-- `MENU[key]`: exact property lookup on the lowercased, trimmed key. -/
def menuLookup (key : String) : Option MenuItem :=
  (MENU.find? (fun e => e.1 == key)).map (·.2)

/-! ### Parsed intents and line items -/

/-- A line item of the AI parse: `{name, qty}`.  The `qty` field stores
the integer JS `parseInt` yields on the parsed quantity (`none` for
`NaN`). -/
structure RawItem where
  name : String
  qty : Option ℤ
deriving DecidableEq

/-- `Math.max(1, parseInt(it.qty) || 1)` — `|| 1` maps `NaN` and `0` to
`1`, and `Math.max` clamps from below. -/
def effQty (q : Option ℤ) : ℕ :=
  (max 1 (match q with
          | some z => if z = 0 then 1 else z
          | none => 1)).toNat

/-- `inferTotalFromItems(items)`: sum `price * qty` over the items the
catalog resolves; unresolved items contribute nothing. -/
def inferTotalFromItems (items : List RawItem) : ℚ :=
  items.foldl (fun sum it =>
    match menuLookup (jsTrim (jsToLower it.name)) with
    | none => sum
    | some item => sum + item.price * (effQty it.qty : ℚ)) 0

/-- `normalizeAmbiguousItems(items, userText)`: a non-array input yields
`[]`; an item whose lowercased trimmed name is `"matcha latte"` is
rewritten to `"latte"` when the raw text contains the word `latte` but
not the word `matcha`. -/
def normalizeAmbiguousItems (items : Option (List RawItem)) (userText : String) :
    List RawItem :=
  match items with
  | none => []
  | some l =>
    let hasLatteWord := testWord "latte" userText
    let hasMatchaWord := testWord "matcha" userText
    l.map (fun it =>
      if jsTrim (jsToLower it.name) == "matcha latte" && hasLatteWord && !hasMatchaWord
      then { it with name := "latte" }
      else it)

/-! ### Intent resolution (lines 385–398) -/

/-- The AI parse as received: intent label, items (possibly absent),
customer (possibly null) and paid (null or a finite number, the result of
`parseNumberOrNull(parsed.paid)`). -/
structure Parsed where
  intent : String
  items : Option (List RawItem)
  customer : Option String
  paid : Option ℚ

/-- The canonical resolved intent after the heuristics ran. -/
structure Resolved where
  intent : String
  items : List RawItem
  customer : Option String
  paid : Option ℚ
deriving DecidableEq

/-- Lines 387–389: `paidFromModel !== null ? paidFromModel : paidFromText`
where `paidFromText = extractPaidAmount(text)`. -/
def explicitPaidOf (paidFromModel : Option ℚ) (text : String) : Option ℚ :=
  match paidFromModel with
  | some q => some q
  | none => extractPaidAmount text

/-- A JS-falsy customer value: `null` or the empty string. -/
def jsFalsyStr : Option String → Bool
  | none => true
  | some c => c == ""

/-- Lines 385–398 of the text handler: normalize items, resolve the
explicit paid amount, backfill the customer, and reclassify a `sale` with
an under-covering explicit payment as a `debt`. -/
def resolveParsed (p : Parsed) (text : String) : Resolved :=
  let items := normalizeAmbiguousItems p.items text
  let explicitPaid := explicitPaidOf p.paid text
  let paid := match explicitPaid with
    | some q => some q
    | none => p.paid
  let customer := match inferCustomerFromText text with
    | some h => if jsFalsyStr p.customer then some h else p.customer
    | none => p.customer
  let inferredTotal := inferTotalFromItems items
  let reclass := match explicitPaid with
    | some ep => decide (0 < inferredTotal) && decide (ep < inferredTotal - 0.01)
    | none => false
  let intent := if p.intent == "sale" && reclass then "debt" else p.intent
  ⟨intent, items, customer, paid⟩

/-! ### Transaction recorder (sale and debt branches) -/

/-- One appended row of the Sales sheet:
`[date, time, item, category, price, paid, owed, note]`. -/
structure SaleRow where
  date : String
  time : String
  item : String
  category : String
  price : ℚ
  paid : ℚ
  owed : ℚ
  note : String
deriving DecidableEq

/-- One row of the Debts sheet:
`[date, customer, item, price, paid, owed, status, settledOn]`. -/
structure DebtRow where
  date : String
  customer : String
  item : String
  price : ℚ
  paid : ℚ
  owed : ℚ
  status : String
  settledOn : String
deriving DecidableEq

/-- A catalog-resolved line item as the recorder loops use it:
`{key, item, qty}` flattened. -/
structure VItem where
  key : String
  price : ℚ
  category : String
  qty : ℕ
deriving DecidableEq

/-- The `validItems` the recorder collects: resolve each item against the
menu, skipping unresolved ones (they only produce a warning reply). -/
def resolveItems : List RawItem → List VItem
  | [] => []
  | it :: rest =>
    match menuLookup (jsTrim (jsToLower it.name)) with
    | none => resolveItems rest
    | some m => ⟨jsTrim (jsToLower it.name), m.price, m.category, effQty it.qty⟩ :: resolveItems rest

/-- `itemTotal = item.price * qty`. -/
def itemTotal (v : VItem) : ℚ := v.price * (v.qty : ℚ)

/-- `totalItemPrice`: the running sum `Σ price * qty` over valid items. -/
def totalItemPriceOf (vs : List VItem) : ℚ :=
  vs.foldl (fun s v => s + itemTotal v) 0

/-- `Math.round(x * 100) / 100`; JS `Math.round(y)` is `⌊y + 1/2⌋`. -/
def round2 (x : ℚ) : ℚ := (⌊x * 100 + 1 / 2⌋ : ℚ) / 100

/-- Line 442: `itemPaid = totalItemPrice > 0 ? round2(itemTotal / totalItemPrice * totalPaid) : 0`. -/
def itemPaidOf (T tp : ℚ) (v : VItem) : ℚ :=
  if 0 < T then round2 (itemTotal v / T * tp) else 0

/-- Line 443: `itemOwed = round2(itemTotal - itemPaid)`. -/
def itemOwedOf (T tp : ℚ) (v : VItem) : ℚ :=
  round2 (itemTotal v - itemPaidOf T tp v)

/-- Line 445: `uP = round2(itemPaid / qty)`. -/
def unitPaidOf (T tp : ℚ) (v : VItem) : ℚ :=
  round2 (itemPaidOf T tp v / (v.qty : ℚ))

/-- Line 446: `uO = round2(item.price - uP)`. -/
def unitOwedOf (T tp : ℚ) (v : VItem) : ℚ :=
  round2 (v.price - unitPaidOf T tp v)

/-- The `qty` Sales rows the debt branch appends for one valid item. -/
def debtSaleRowsFor (date time customer : String) (T tp : ℚ) (v : VItem) : List SaleRow :=
  List.replicate v.qty
    ⟨date, time, capitalize v.key, v.category, v.price,
     unitPaidOf T tp v, unitOwedOf T tp v, customer⟩

/-- The Debts rows the debt branch appends for one valid item (one per
unit, only when `uO > 0`). -/
def debtDebtRowsFor (date customer : String) (T tp : ℚ) (v : VItem) : List DebtRow :=
  if 0 < unitOwedOf T tp v then
    List.replicate v.qty
      ⟨date, customer, capitalize v.key, v.price,
       unitPaidOf T tp v, unitOwedOf T tp v, "Pending", ""⟩
  else []

/-- Outcome of the debt branch (lines 425–458). -/
inductive DebtOutcome where
  | noItems : DebtOutcome
  | noValidItems : DebtOutcome
  | overpaid (totalPaid totalItemPrice : ℚ) : DebtOutcome
  | recorded (saleRows : List SaleRow) (debtRows : List DebtRow)
      (totalItemPrice totalPaid totalOwed : ℚ) : DebtOutcome
deriving DecidableEq

/-- Sales rows an outcome writes (none unless recording happened). -/
def DebtOutcome.salesWritten : DebtOutcome → List SaleRow
  | .recorded rows _ _ _ _ => rows
  | _ => []

/-- Debts rows an outcome writes (none unless recording happened). -/
def DebtOutcome.debtsWritten : DebtOutcome → List DebtRow
  | .recorded _ rows _ _ _ => rows
  | _ => []

/-- The debt branch: resolve items (warning on the unresolved ones),
bail out silently when none resolve, reject when the stated payment
exceeds the total, otherwise allocate proportionally and emit the rows. -/
def processDebt (items : List RawItem) (paid : Option ℚ) (date time customer : String) :
    DebtOutcome :=
  if items.isEmpty then .noItems
  else
    let vs := resolveItems items
    if vs.isEmpty then .noValidItems
    else
      let T := totalItemPriceOf vs
      let tp := jsOr0 paid
      if T < tp then .overpaid tp T
      else
        .recorded (vs.flatMap (debtSaleRowsFor date time customer T tp))
          (vs.flatMap (debtDebtRowsFor date customer T tp))
          T tp
          (vs.foldl (fun s v => s + itemOwedOf T tp v) 0)

/-- The `qty` Sales rows the sale branch appends for one valid item. -/
def saleRowsFor (date time : String) (v : VItem) : List SaleRow :=
  List.replicate v.qty
    ⟨date, time, capitalize v.key, v.category, v.price, v.price, 0, "Paid in full"⟩

/-- The sale branch (lines 402–423): rows appended and the running total. -/
def processSale (items : List RawItem) (date time : String) : List SaleRow × ℚ :=
  if items.isEmpty then ([], 0)
  else
    let vs := resolveItems items
    (vs.flatMap (saleRowsFor date time), vs.foldl (fun s v => s + itemTotal v) 0)

/-! ### Settlement engine (the `/settle` command and the `settle` intent) -/

/-- The per-row customer/status test of the settle loops:
`(data[i][1] || "").toLowerCase() === name.toLowerCase() && data[i][6] === "Pending"`. -/
def rowMatches (name : String) (r : DebtRow) : Bool :=
  jsToLower r.customer == jsToLower name && r.status == "Pending"

/-- The cap test: `amount === null || settled + rowOwed <= amount + 0.01`. -/
def capOk (amount : Option ℚ) (settled rowOwed : ℚ) : Bool :=
  match amount with
  | none => true
  | some a => decide (settled + rowOwed ≤ a + 0.01)

/-- The settle loop over the stored Debts rows, in insertion order:
returns the updated rows and the total settled. -/
def settleRows (name : String) (amount : Option ℚ) (today : String) :
    List DebtRow → ℚ → List DebtRow × ℚ
  | [], settled => ([], settled)
  | r :: rs, settled =>
    if rowMatches name r then
      if capOk amount settled r.owed then
        let rest := settleRows name amount today rs (settled + r.owed)
        ({ r with status := "Settled", settledOn := today } :: rest.1, rest.2)
      else
        let rest := settleRows name amount today rs settled
        (r :: rest.1, rest.2)
    else
      let rest := settleRows name amount today rs settled
      (r :: rest.1, rest.2)

/-- The result of parsing `/settle <name> [amount]`. -/
structure SettleCmd where
  name : String
  amount : Option ℚ
deriving DecidableEq

/-- Lines 331–336: strip `/settle`, split on whitespace, treat a numeric
final token (when more than one token is present) as the cap amount. -/
def settleCmdParse (text : String) : SettleCmd :=
  let parts := splitWs (jsTrim (replaceFirst "/settle" text))
  let last := parts.getLastD ""
  let hasAmt := !(jsParseFloat last).isNone && decide (1 < parts.length)
  let name := String.intercalate " " (if hasAmt then parts.dropLast else parts)
  let amount := if hasAmt then jsParseFloat last else none
  ⟨name, amount⟩

/-- Line 463 of the natural-language settle branch:
`const amount = parseFloat(parsed.paid) || null` — `NaN` and `0` are both
falsy, so a parsed paid of `0` yields no cap. -/
def nlSettleAmount (paid : Option ℚ) : Option ℚ :=
  match paid with
  | some q => if q = 0 then none else some q
  | none => none

/-! ### Summary aggregator (`updateSummary`) -/

/-- A written summary cell: a plain string, a number rendered with the
`" AED"` suffix, or a plain count. -/
inductive SCell where
  | str (v : String)
  | aed (v : ℚ)
  | cnt (v : ℕ)
deriving DecidableEq

/-- `r[i]` of a sheet row (`""` stands for `undefined` on short rows:
both fail the string comparisons and parse to `NaN`). -/
def cellStr (r : List String) (i : ℕ) : String := r.getD i ""

/-- `parseFloat(r[i]) || 0`. -/
def cellNum (r : List String) (i : ℕ) : ℚ := jsOr0 (jsParseFloat (r.getD i ""))

/-- The rows `updateSummary` writes to the Summary sheet, as a function of
the Sales and Debts sheet data, today's date string and the
`new Date().toLocaleString()` timestamp. -/
def updateSummaryRows (salesData debtData : List (List String)) (today nowStr : String) :
    List (List SCell) :=
  let sales := salesData.drop 1
  let debts := debtData.drop 1
  let totalRevenue := sales.foldl (fun s r => s + cellNum r 4) 0
  let totalCollected := sales.foldl (fun s r => s + cellNum r 5) 0
  let totalOwed := (debts.filter (fun r => cellStr r 6 == "Pending")).foldl
    (fun s r => s + cellNum r 5) 0
  let totalSettled := (debts.filter (fun r => cellStr r 6 == "Settled")).foldl
    (fun s r => s + cellNum r 5) 0
  let todaySales := sales.filter (fun r => cellStr r 0 == today)
  let todayRev := todaySales.foldl (fun s r => s + cellNum r 4) 0
  let todayPaid := todaySales.foldl (fun s r => s + cellNum r 5) 0
  [[SCell.str "Metric", SCell.str "Value"],
   [SCell.str "Last Updated", SCell.str nowStr],
   [SCell.str "─── TODAY ───", SCell.str ""],
   [SCell.str "Today\x27s Revenue", SCell.aed todayRev],
   [SCell.str "Today\x27s Collected", SCell.aed todayPaid],
   [SCell.str "─── ALL TIME ───", SCell.str ""],
   [SCell.str "Total Revenue", SCell.aed totalRevenue],
   [SCell.str "Total Collected", SCell.aed totalCollected],
   [SCell.str "Total Transactions", SCell.cnt sales.length],
   [SCell.str "─── DEBTS ───", SCell.str ""],
   [SCell.str "Unsettled Debts", SCell.aed totalOwed],
   [SCell.str "Settled Debts", SCell.aed totalSettled]]

/-- What the loop does to the row at position `i`: settle it exactly when
it matches the customer, is pending, and the cap admits it on top of what
was already settled. -/
def applySettle (name : String) (amount : Option ℚ) (today : String) (run : ℚ)
    (r : DebtRow) : DebtRow :=
  if rowMatches name r && capOk amount run r.owed
  then { r with status := "Settled", settledOn := today }
  else r

/-! ### Arithmetic facts about `round2` -/

/-- A rational that is a whole number of cents (its double-rounded
representation is exact). -/
def isCent (x : ℚ) : Prop := ∃ n : ℤ, x * 100 = (n : ℚ)

theorem isCent_round2 (x : ℚ) : isCent (round2 x) :=
  ⟨⌊x * 100 + 1 / 2⌋, by rw [round2]; field_simp⟩

theorem isCent_zero : isCent 0 := ⟨0, by norm_num⟩

theorem isCent_sub {x y : ℚ} (hx : isCent x) (hy : isCent y) : isCent (x - y) := by
  obtain ⟨a, ha⟩ := hx
  obtain ⟨b, hb⟩ := hy
  exact ⟨a - b, by push_cast; rw [sub_mul, ha, hb]⟩

/-- `round2` is the identity on whole-cent values. -/
theorem round2_eq_self {x : ℚ} (h : isCent x) : round2 x = x := by
  obtain ⟨n, hn⟩ := h
  have hfloor : ⌊x * 100 + 1 / 2⌋ = n := by
    rw [hn]
    rw [show ((n : ℚ) + 1 / 2) = (1 : ℚ) / 2 + n by ring, Int.floor_add_int]
    norm_num
  rw [round2, hfloor]
  have h100 : (100 : ℚ) ≠ 0 := by norm_num
  field_simp
  linarith [hn]

/-- `Math.round` never adds more than half a unit: on the cent scale,
`round2 x ≤ x + 1/200`. -/
theorem round2_le (x : ℚ) : round2 x ≤ x + 1 / 200 := by
  have h := Int.floor_le (x * 100 + 1 / 2)
  rw [round2]
  linarith

/-- `Math.round` never removes more than half a unit. -/
theorem round2_ge (x : ℚ) : x - 1 / 200 < round2 x := by
  have h := Int.sub_one_lt_floor (x * 100 + 1 / 2)
  rw [round2]
  linarith

/-! ### Facts about the menu and resolved items -/

/-- Every menu price is 20 or 25 AED. -/
theorem menu_price_cases : ∀ e ∈ MENU, e.2.price = 20 ∨ e.2.price = 25 := by
  with_unfolding_all decide

theorem menuLookup_price {key : String} {m : MenuItem} (h : menuLookup key = some m) :
    m.price = 20 ∨ m.price = 25 := by
  rw [menuLookup] at h
  obtain ⟨e, he, hm⟩ := Option.map_eq_some'.mp h
  exact hm ▸ menu_price_cases e (List.mem_of_find?_eq_some he)

/-- The effective quantity is at least one unit. -/
theorem effQty_ge_one (q : Option ℤ) : 1 ≤ effQty q := by
  rw [effQty.eq_def]
  have h1 : (1 : ℤ) ≤ max 1 (match q with
      | some z => if z = 0 then 1 else z
      | none => 1) := le_max_left _ _
  exact_mod_cast Int.toNat_le_toNat h1

/-- Every resolved item carries a menu price and a positive quantity. -/
theorem resolveItems_price_qty :
    ∀ {items : List RawItem} {v : VItem}, v ∈ resolveItems items →
      (v.price = 20 ∨ v.price = 25) ∧ 1 ≤ v.qty := by
  intro items
  induction items with
  | nil => intro v hv; simp [resolveItems] at hv
  | cons it rest ih =>
    intro v hv
    rw [resolveItems] at hv
    cases hlk : menuLookup (jsTrim (jsToLower it.name)) with
    | none => exact ih (by rwa [hlk] at hv)
    | some m =>
      rw [hlk] at hv
      rcases List.mem_cons.mp hv with h | h
      · subst h
        exact ⟨menuLookup_price hlk, effQty_ge_one it.qty⟩
      · exact ih h

/-- Folding `+ f v` from `a` is `a` plus the mapped sum. -/
theorem foldl_add_map (f : VItem → ℚ) :
    ∀ (l : List VItem) (a : ℚ), l.foldl (fun s v => s + f v) a = a + (l.map f).sum := by
  intro l
  induction l with
  | nil => intro a; simp
  | cons v rest ih => intro a; simp [List.foldl_cons, ih, add_assoc]

theorem totalItemPriceOf_eq_sum (vs : List VItem) :
    totalItemPriceOf vs = (vs.map itemTotal).sum := by
  rw [totalItemPriceOf]
  simpa using foldl_add_map itemTotal vs 0

theorem itemTotal_pos {v : VItem} (hp : v.price = 20 ∨ v.price = 25) (hq : 1 ≤ v.qty) :
    0 < itemTotal v := by
  have hq1 : (1 : ℚ) ≤ (v.qty : ℚ) := by exact_mod_cast hq
  rcases hp with h | h <;> rw [itemTotal, h] <;> nlinarith

theorem itemTotal_nonneg {v : VItem} (hp : v.price = 20 ∨ v.price = 25) :
    0 ≤ itemTotal v := by
  have hq : (0 : ℚ) ≤ (v.qty : ℚ) := by positivity
  rcases hp with h | h <;> rw [itemTotal, h] <;> nlinarith

/-- The running `totalItemPrice` is positive as soon as one item resolved. -/
theorem totalItemPrice_pos {items : List RawItem} {v : VItem}
    (hv : v ∈ resolveItems items) :
    0 < totalItemPriceOf (resolveItems items) := by
  have hle : itemTotal v ≤ ((resolveItems items).map itemTotal).sum := by
    apply List.single_le_sum
    · intro x hx
      obtain ⟨w, hw, hwx⟩ := List.mem_map.mp hx
      exact hwx ▸ itemTotal_nonneg (resolveItems_price_qty hw).1
    · exact List.mem_map_of_mem itemTotal hv
  have hpos := itemTotal_pos (resolveItems_price_qty hv).1 (resolveItems_price_qty hv).2
  rw [totalItemPriceOf_eq_sum]
  linarith

theorem isCent_price {v : VItem} (hp : v.price = 20 ∨ v.price = 25) : isCent v.price := by
  rcases hp with h | h
  · exact ⟨2000, by rw [h]; norm_num⟩
  · exact ⟨2500, by rw [h]; norm_num⟩

theorem isCent_itemTotal {v : VItem} (hp : v.price = 20 ∨ v.price = 25) :
    isCent (itemTotal v) := by
  rcases hp with h | h
  · exact ⟨2000 * v.qty, by rw [itemTotal, h]; push_cast; ring⟩
  · exact ⟨2500 * v.qty, by rw [itemTotal, h]; push_cast; ring⟩

theorem isCent_itemPaid (T tp : ℚ) (v : VItem) : isCent (itemPaidOf T tp v) := by
  rw [itemPaidOf]
  split
  · exact isCent_round2 _
  · exact isCent_zero

theorem isCent_unitPaid (T tp : ℚ) (v : VItem) : isCent (unitPaidOf T tp v) :=
  isCent_round2 _

/-- The pre-split allocation is exact: `itemPaid + itemOwed = itemTotal`. -/
theorem itemPaid_add_itemOwed {T tp : ℚ} {v : VItem}
    (hp : v.price = 20 ∨ v.price = 25) :
    itemPaidOf T tp v + itemOwedOf T tp v = itemTotal v := by
  rw [itemOwedOf, round2_eq_self (isCent_sub (isCent_itemTotal hp) (isCent_itemPaid T tp v))]
  ring

/-- The per-unit split is exact: `uP + uO = price`. -/
theorem unitPaid_add_unitOwed {T tp : ℚ} {v : VItem}
    (hp : v.price = 20 ∨ v.price = 25) :
    unitPaidOf T tp v + unitOwedOf T tp v = v.price := by
  rw [unitOwedOf, round2_eq_self (isCent_sub (isCent_price hp) (isCent_unitPaid T tp v))]
  ring

/-! ### Structure of the settle loop -/

/-- The settle loop visits rows in stored order: the output at position
`i` is the input row there, settled exactly under the loop's condition,
where the running total is the one accumulated over the prefix before
`i`. -/
theorem settleRows_getElem (name : String) (amount : Option ℚ) (today : String) :
    ∀ (rows : List DebtRow) (s : ℚ) (i : ℕ),
      (settleRows name amount today rows s).1[i]?
        = (rows[i]?).map
            (applySettle name amount today (settleRows name amount today (rows.take i) s).2) := by
  intro rows
  induction rows with
  | nil => intro s i; simp [settleRows]
  | cons r rs ih =>
    intro s i
    cases i with
    | zero =>
      rw [settleRows]
      cases hm : rowMatches name r with
      | false => simp [hm, settleRows, applySettle]
      | true =>
        cases hc : capOk amount s r.owed with
        | false => simp [hm, hc, settleRows, applySettle]
        | true => simp [hm, hc, settleRows, applySettle]
    | succ i =>
      have htake : (r :: rs).take (i + 1) = r :: rs.take i := rfl
      rw [settleRows, htake, settleRows]
      cases hm : rowMatches name r with
      | false => simpa [hm] using ih s i
      | true =>
        cases hc : capOk amount s r.owed with
        | false => simpa [hm, hc] using ih s i
        | true => simpa [hm, hc] using ih (s + r.owed) i

/-- With no cap every matching pending row is settled. -/
theorem settleRows_amount_none (name today : String) :
    ∀ (rows : List DebtRow) (s : ℚ),
      (settleRows name none today rows s).1
        = rows.map (fun r =>
            if rowMatches name r
            then { r with status := "Settled", settledOn := today }
            else r) := by
  intro rows
  induction rows with
  | nil => intro s; simp [settleRows]
  | cons r rs ih =>
    intro s
    rw [settleRows]
    cases hm : rowMatches name r with
    | false => simp [hm, ih s]
    | true => simp [hm, capOk, ih]

/-- The running settled total never decreases when all owed cells are
nonnegative. -/
theorem settleRows_snd_le (name : String) (amount : Option ℚ) (today : String) :
    ∀ (rows : List DebtRow) (s : ℚ), (∀ r ∈ rows, 0 ≤ r.owed) →
      s ≤ (settleRows name amount today rows s).2 := by
  intro rows
  induction rows with
  | nil => intro s _; simp [settleRows]
  | cons r rs ih =>
    intro s h
    have hr : 0 ≤ r.owed := h r (List.mem_cons_self r rs)
    have hrs : ∀ x ∈ rs, 0 ≤ x.owed := fun x hx => h x (List.mem_cons_of_mem r hx)
    rw [settleRows]
    cases hm : rowMatches name r with
    | false => simpa [hm] using ih s hrs
    | true =>
      cases hc : capOk amount s r.owed with
      | false => simpa [hm, hc] using ih s hrs
      | true =>
        have hstep := ih (s + r.owed) hrs
        have hs : s ≤ (settleRows name amount today rs (s + r.owed)).2 := by linarith
        simpa [hm, hc] using hs

/-! ### Claim theorems -/

/-- C1: in the debt-recording path, for every resolved item (with
`itemTotal = unitPrice * quantity` and `totalItemPrice` the sum of
`itemTotal` over resolved items) `itemPaid` equals
`round2(itemTotal / totalItemPrice * totalPaid)` — and `0` when
`totalItemPrice = 0` — `itemOwed` equals `round2(itemTotal - itemPaid)`,
and `itemPaid + itemOwed = itemTotal` holds exactly. -/
theorem debt_item_allocation (items : List RawItem) (tp : ℚ) (v : VItem)
    (hv : v ∈ resolveItems items) :
    itemPaidOf (totalItemPriceOf (resolveItems items)) tp v
        = (if totalItemPriceOf (resolveItems items) = 0 then 0
           else round2 (itemTotal v / totalItemPriceOf (resolveItems items) * tp)) ∧
    itemOwedOf (totalItemPriceOf (resolveItems items)) tp v
        = round2 (itemTotal v - itemPaidOf (totalItemPriceOf (resolveItems items)) tp v) ∧
    itemPaidOf (totalItemPriceOf (resolveItems items)) tp v
        + itemOwedOf (totalItemPriceOf (resolveItems items)) tp v = itemTotal v := by
  have hT := totalItemPrice_pos hv
  refine ⟨?_, rfl, itemPaid_add_itemOwed (resolveItems_price_qty hv).1⟩
  rw [itemPaidOf, if_pos hT, if_neg (by linarith)]

/-- Witness for C1 at a concrete debt: two lattes, 15 AED paid. -/
theorem debt_item_allocation_witness :
    itemPaidOf (totalItemPriceOf (resolveItems [⟨"latte", some 2⟩])) 15 ⟨"latte", 25, "Coffee", 2⟩
      + itemOwedOf (totalItemPriceOf (resolveItems [⟨"latte", some 2⟩])) 15 ⟨"latte", 25, "Coffee", 2⟩
      = itemTotal ⟨"latte", 25, "Coffee", 2⟩ :=
  (debt_item_allocation [⟨"latte", some 2⟩] 15 ⟨"latte", 25, "Coffee", 2⟩
    (by with_unfolding_all decide)).2.2

/-- C2: a debt request whose stated paid amount exceeds the total price of
the resolved items writes no Sales row and no Debts row, and — as soon as
any item resolved — produces exactly the overpayment rejection reply. -/
theorem overpaid_guard_rejects (items : List RawItem) (paid : Option ℚ) (d t c : String)
    (h : totalItemPriceOf (resolveItems items) < jsOr0 paid) :
    (processDebt items paid d t c).salesWritten = [] ∧
    (processDebt items paid d t c).debtsWritten = [] ∧
    (resolveItems items ≠ [] →
      processDebt items paid d t c
        = DebtOutcome.overpaid (jsOr0 paid) (totalItemPriceOf (resolveItems items))) := by
  by_cases hni : items.isEmpty
  · have : resolveItems items = [] := by
      rw [List.isEmpty_iff.mp hni]; rfl
    simp [processDebt, hni, DebtOutcome.salesWritten, DebtOutcome.debtsWritten, this]
  · by_cases hvs : (resolveItems items).isEmpty
    · simp [processDebt, hni, hvs, DebtOutcome.salesWritten, DebtOutcome.debtsWritten,
        List.isEmpty_iff.mp hvs]
    · simp [processDebt, hni, hvs, if_pos h, DebtOutcome.salesWritten, DebtOutcome.debtsWritten]

/-- Witness for C2: one latte (25 AED) with a stated payment of 30. -/
theorem overpaid_guard_rejects_witness :
    (processDebt [⟨"latte", some 1⟩] (some 30) "D" "T" "C").salesWritten = [] ∧
    (processDebt [⟨"latte", some 1⟩] (some 30) "D" "T" "C").debtsWritten = [] ∧
    (resolveItems [⟨"latte", some 1⟩] ≠ [] →
      processDebt [⟨"latte", some 1⟩] (some 30) "D" "T" "C"
        = DebtOutcome.overpaid (jsOr0 (some 30)) (totalItemPriceOf (resolveItems [⟨"latte", some 1⟩]))) :=
  overpaid_guard_rejects [⟨"latte", some 1⟩] (some 30) "D" "T" "C"
    (by with_unfolding_all decide)

/-- C5 counterexample: three espressos with a stated payment of 0.02 AED
pass the overpayment guard, get `itemPaid = 0.02`, and each unit rounds to
`0.01`, so the per-unit paid amounts sum to `0.03 > itemPaid`, refuting
`sum(unitPaid) ≤ itemPaid`. -/
theorem unit_paid_sum_cex :
    (⟨"espresso", 20, "Coffee", 3⟩ : VItem) ∈ resolveItems [⟨"espresso", some 3⟩] ∧
    jsOr0 (some (1 / 50)) ≤ totalItemPriceOf (resolveItems [⟨"espresso", some 3⟩]) ∧
    itemPaidOf (totalItemPriceOf (resolveItems [⟨"espresso", some 3⟩])) (jsOr0 (some (1 / 50)))
        ⟨"espresso", 20, "Coffee", 3⟩
      < ((debtSaleRowsFor "D" "T" "C" (totalItemPriceOf (resolveItems [⟨"espresso", some 3⟩]))
            (jsOr0 (some (1 / 50))) ⟨"espresso", 20, "Coffee", 3⟩).map SaleRow.paid).sum := by
  with_unfolding_all decide

/-- C5 (amended): for every debt allocation of an item across its units,
the rounded per-unit paid amounts sum to at most
`itemPaid + quantity * 0.005` (each unit rounds up by at most half a
cent); the unamended bound `≤ itemPaid` fails, see the counterexample. -/
theorem unit_paid_sum_bound (items : List RawItem) (tp : ℚ) (d t c : String) (v : VItem)
    (hv : v ∈ resolveItems items) :
    ((debtSaleRowsFor d t c (totalItemPriceOf (resolveItems items)) tp v).map SaleRow.paid).sum
      ≤ itemPaidOf (totalItemPriceOf (resolveItems items)) tp v + (v.qty : ℚ) * (1 / 200) := by
  set T := totalItemPriceOf (resolveItems items) with hT
  have hq : 1 ≤ v.qty := (resolveItems_price_qty hv).2
  have hq0 : (0 : ℚ) < (v.qty : ℚ) := by exact_mod_cast hq
  have hsum : ((debtSaleRowsFor d t c T tp v).map SaleRow.paid).sum
      = (v.qty : ℚ) * unitPaidOf T tp v := by
    rw [debtSaleRowsFor, List.map_replicate, List.sum_replicate, nsmul_eq_mul]
  rw [hsum]
  have hr : unitPaidOf T tp v ≤ itemPaidOf T tp v / (v.qty : ℚ) + 1 / 200 := round2_le _
  calc (v.qty : ℚ) * unitPaidOf T tp v
      ≤ (v.qty : ℚ) * (itemPaidOf T tp v / (v.qty : ℚ) + 1 / 200) :=
        mul_le_mul_of_nonneg_left hr (le_of_lt hq0)
    _ = itemPaidOf T tp v + (v.qty : ℚ) * (1 / 200) := by
        field_simp
        ring

/-- Witness for the amended C5 at three espressos with 10 AED paid. -/
theorem unit_paid_sum_bound_witness :
    ((debtSaleRowsFor "D" "T" "C" (totalItemPriceOf (resolveItems [⟨"espresso", some 3⟩])) 10
        ⟨"espresso", 20, "Coffee", 3⟩).map SaleRow.paid).sum
      ≤ itemPaidOf (totalItemPriceOf (resolveItems [⟨"espresso", some 3⟩])) 10
          ⟨"espresso", 20, "Coffee", 3⟩
        + ((3 : ℕ) : ℚ) * (1 / 200) :=
  unit_paid_sum_bound [⟨"espresso", some 3⟩] 10 "D" "T" "C" ⟨"espresso", 20, "Coffee", 3⟩
    (by with_unfolding_all decide)

/-- The Sales rows of the debt branch: empty, or exactly the per-item
unit rows of the resolved items. -/
theorem processDebt_salesWritten (items : List RawItem) (paid : Option ℚ) (d t c : String) :
    (processDebt items paid d t c).salesWritten = [] ∨
    (¬ totalItemPriceOf (resolveItems items) < jsOr0 paid ∧
      (processDebt items paid d t c).salesWritten
        = (resolveItems items).flatMap
            (debtSaleRowsFor d t c (totalItemPriceOf (resolveItems items)) (jsOr0 paid))) := by
  by_cases h1 : items.isEmpty
  · exact Or.inl (by simp [processDebt, h1, DebtOutcome.salesWritten])
  · by_cases h2 : (resolveItems items).isEmpty
    · exact Or.inl (by simp [processDebt, h1, h2, DebtOutcome.salesWritten])
    · by_cases h3 : totalItemPriceOf (resolveItems items) < jsOr0 paid
      · exact Or.inl (by simp [processDebt, h1, h2, h3, DebtOutcome.salesWritten])
      · exact Or.inr ⟨h3, by simp [processDebt, h1, h2, h3, DebtOutcome.salesWritten]⟩

/-- Length of a `flatMap` as the sum of the mapped lengths. -/
theorem length_flatMap {α β : Type} (l : List α) (f : α → List β) :
    (l.flatMap f).length = (l.map (fun a => (f a).length)).sum := by
  induction l with
  | nil => simp
  | cons a l ih => simp [List.flatMap_cons, ih]

/-- C7: every Sales row emitted by the sale branch or the debt branch
satisfies `amountPaid + amountOwed = unitPrice` exactly — in particular
within the 0.01 tolerance — and the rows number one per physical unit:
their count is the sum of the effective quantities of the resolved
items. -/
theorem sale_row_unit_invariant (items : List RawItem) (paid : Option ℚ) (d t c : String) :
    (∀ r ∈ (processSale items d t).1,
        r.paid + r.owed = r.price ∧ |r.paid + r.owed - r.price| ≤ 0.01) ∧
    (∀ r ∈ (processDebt items paid d t c).salesWritten,
        r.paid + r.owed = r.price ∧ |r.paid + r.owed - r.price| ≤ 0.01) ∧
    (processSale items d t).1.length = ((resolveItems items).map VItem.qty).sum ∧
    ((processDebt items paid d t c).salesWritten ≠ [] →
      (processDebt items paid d t c).salesWritten.length
        = ((resolveItems items).map VItem.qty).sum) := by
  have habs : ∀ r : SaleRow, r.paid + r.owed = r.price →
      |r.paid + r.owed - r.price| ≤ 0.01 := by
    intro r h
    rw [h, sub_self, abs_zero]
    norm_num
  refine ⟨?_, ?_, ?_, ?_⟩
  · intro r hr
    by_cases h1 : items.isEmpty
    · simp [processSale, h1] at hr
    · simp only [processSale, h1, if_neg, Bool.false_eq_true, if_false] at hr
      obtain ⟨v, hv, hrv⟩ := List.mem_flatMap.mp hr
      have := List.eq_of_mem_replicate (by simpa [saleRowsFor] using hrv)
      subst this
      refine ⟨by simp, habs _ (by simp)⟩
  · intro r hr
    rcases processDebt_salesWritten items paid d t c with h | ⟨_, h⟩
    · rw [h] at hr; simp at hr
    · rw [h] at hr
      obtain ⟨v, hv, hrv⟩ := List.mem_flatMap.mp hr
      have := List.eq_of_mem_replicate (by simpa [debtSaleRowsFor] using hrv)
      subst this
      have hp := (resolveItems_price_qty hv).1
      have hrow : unitPaidOf (totalItemPriceOf (resolveItems items)) (jsOr0 paid) v
          + unitOwedOf (totalItemPriceOf (resolveItems items)) (jsOr0 paid) v = v.price :=
        unitPaid_add_unitOwed hp
      exact ⟨by simpa using hrow, habs _ (by simpa using hrow)⟩
  · by_cases h1 : items.isEmpty
    · have : resolveItems items = [] := by rw [List.isEmpty_iff.mp h1]; rfl
      simp [processSale, h1, this]
    · simp only [processSale, h1, Bool.false_eq_true, if_false]
      rw [length_flatMap]
      congr 1
      apply List.map_congr_left
      intro v _
      simp [saleRowsFor]
  · intro hne
    rcases processDebt_salesWritten items paid d t c with h | ⟨_, h⟩
    · exact absurd h hne
    · rw [h, length_flatMap]
      congr 1
      apply List.map_congr_left
      intro v _
      simp [debtSaleRowsFor]

/-- Witness for C7 at a concrete debt row: one latte, 15 AED paid. -/
theorem sale_row_unit_invariant_witness :
    (⟨"D", "T", "Latte", "Coffee", 25, 15, 10, "C"⟩ : SaleRow).paid
      + (⟨"D", "T", "Latte", "Coffee", 25, 15, 10, "C"⟩ : SaleRow).owed
      = (⟨"D", "T", "Latte", "Coffee", 25, 15, 10, "C"⟩ : SaleRow).price :=
  ((sale_row_unit_invariant [⟨"latte", none⟩] (some 15) "D" "T" "C").2.1
    ⟨"D", "T", "Latte", "Coffee", 25, 15, 10, "C"⟩ (by with_unfolding_all decide)).1

/-- C4: the settle loop visits the stored Debts rows in insertion order
and settles a row exactly when it matches the customer, is pending, and —
if a cap was given — the running total plus its owed amount stays within
`cap + 0.01`; on pending debts of 10, 8 and 6 (in that order) with cap 14,
only the 10-row settles and the running total is 10. -/
theorem settle_first_fit_order :
    (∀ (name : String) (amount : Option ℚ) (today : String) (rows : List DebtRow)
        (s : ℚ) (i : ℕ),
      (settleRows name amount today rows s).1[i]?
        = (rows[i]?).map
            (applySettle name amount today (settleRows name amount today (rows.take i) s).2)) ∧
    settleRows "X" (some 14) "2026-01-02"
      [⟨"2026-01-01", "X", "Latte", 25, 15, 10, "Pending", ""⟩,
       ⟨"2026-01-01", "X", "Latte", 25, 17, 8, "Pending", ""⟩,
       ⟨"2026-01-01", "X", "Latte", 25, 19, 6, "Pending", ""⟩] 0
      = ([⟨"2026-01-01", "X", "Latte", 25, 15, 10, "Settled", "2026-01-02"⟩,
          ⟨"2026-01-01", "X", "Latte", 25, 17, 8, "Pending", ""⟩,
          ⟨"2026-01-01", "X", "Latte", 25, 19, 6, "Pending", ""⟩], 10) :=
  ⟨fun name amount today => settleRows_getElem name amount today,
   by with_unfolding_all decide⟩

/-- C10: in the natural-language settle branch a parsed paid amount of 0
is coerced to no cap (`parseFloat(parsed.paid) || null`), so every pending
row of the customer settles, whereas `/settle Ahmed 0` keeps the cap 0 and
settles only rows owing at most 0.01. -/
theorem settle_zero_cap_asymmetry :
    nlSettleAmount (some 0) = none ∧
    (∀ (name today : String) (rows : List DebtRow),
      (settleRows name (nlSettleAmount (some 0)) today rows 0).1
        = rows.map (fun r =>
            if rowMatches name r
            then { r with status := "Settled", settledOn := today } else r)) ∧
    settleCmdParse "/settle Ahmed 0" = ⟨"Ahmed", some 0⟩ ∧
    (∀ (name today : String) (rows : List DebtRow) (i : ℕ) (r r' : DebtRow),
      (∀ x ∈ rows, 0 ≤ x.owed) → rows[i]? = some r →
      (settleRows name (some 0) today rows 0).1[i]? = some r' →
      r.status = "Pending" → r'.status = "Settled" → r.owed ≤ 0.01) := by
  refine ⟨rfl, ?_, by with_unfolding_all decide, ?_⟩
  · intro name today rows
    exact settleRows_amount_none name today rows 0
  · intro name today rows i r r' hnn hr hr' hpend hsett
    have hchar := settleRows_getElem name (some 0) today rows 0 i
    rw [hr', hr, Option.map_some'] at hchar
    have hr'eq : r' = applySettle name (some 0) today
        ((settleRows name (some 0) today (rows.take i) 0).2) r := Option.some.inj hchar
    by_cases hcond :
        (rowMatches name r
          && capOk (some 0) ((settleRows name (some 0) today (rows.take i) 0).2) r.owed) = true
    · have hmc : rowMatches name r = true
          ∧ capOk (some 0) ((settleRows name (some 0) today (rows.take i) 0).2) r.owed = true := by
        simpa using hcond
      have hcap := hmc.2
      rw [capOk] at hcap
      have hle : (settleRows name (some 0) today (rows.take i) 0).2 + r.owed ≤ 0 + 0.01 :=
        of_decide_eq_true hcap
      have hrun0 : (0 : ℚ) ≤ (settleRows name (some 0) today (rows.take i) 0).2 := by
        apply settleRows_snd_le
        intro x hx
        exact hnn x (List.mem_of_mem_take hx)
      linarith
    · exfalso
      rw [applySettle, if_neg hcond] at hr'eq
      rw [hr'eq, hpend] at hsett
      exact absurd hsett (by decide)

set_option maxRecDepth 2000 in
/-- Witness for C10: a single fully-covered pending row (owed 0) settles
under the explicit cap 0, and its owed amount is within the 0.01
tolerance. -/
theorem settle_zero_cap_asymmetry_witness : (0 : ℚ) ≤ 0.01 :=
  settle_zero_cap_asymmetry.2.2.2 "Ahmed" "2026-01-02"
    [⟨"2026-01-01", "Ahmed", "Latte", 25, 25, 0, "Pending", ""⟩] 0
    ⟨"2026-01-01", "Ahmed", "Latte", 25, 25, 0, "Pending", ""⟩
    ⟨"2026-01-01", "Ahmed", "Latte", 25, 25, 0, "Settled", "2026-01-02"⟩
    (by with_unfolding_all decide)
    (by with_unfolding_all decide)
    (by
      have h : (settleRows "Ahmed" (some 0) "2026-01-02"
          [⟨"2026-01-01", "Ahmed", "Latte", 25, 25, 0, "Pending", ""⟩] 0).1
          = [⟨"2026-01-01", "Ahmed", "Latte", 25, 25, 0, "Settled", "2026-01-02"⟩] := by
        with_unfolding_all decide
      rw [h]
      with_unfolding_all decide)
    rfl rfl

/-- C3: a `sale` parse with a known explicit paid amount that undercuts a
positive inferred catalog total by more than 0.01 is reclassified to
`debt`; conversely, whenever the resolver changes the intent at all, it
was exactly this rule that fired — no other kind transition happens
automatically. -/
theorem sale_reclassified_to_debt (p : Parsed) (text : String) :
    (∀ ep : ℚ, p.intent = "sale" → explicitPaidOf p.paid text = some ep →
      0 < inferTotalFromItems (normalizeAmbiguousItems p.items text) →
      ep < inferTotalFromItems (normalizeAmbiguousItems p.items text) - 0.01 →
      (resolveParsed p text).intent = "debt") ∧
    ((resolveParsed p text).intent ≠ p.intent →
      p.intent = "sale" ∧ (resolveParsed p text).intent = "debt" ∧
        ∃ ep : ℚ, explicitPaidOf p.paid text = some ep ∧
          0 < inferTotalFromItems (normalizeAmbiguousItems p.items text) ∧
          ep < inferTotalFromItems (normalizeAmbiguousItems p.items text) - 0.01) := by
  constructor
  · intro ep hsale hep htot hlt
    simp only [resolveParsed, hep, hsale]
    simp [htot, hlt]
  · intro hchange
    simp only [resolveParsed] at hchange ⊢
    cases hep : explicitPaidOf p.paid text with
    | none => rw [hep] at hchange; simp at hchange
    | some ep =>
      rw [hep] at hchange
      by_cases hsale : p.intent = "sale"
      · by_cases htot : 0 < inferTotalFromItems (normalizeAmbiguousItems p.items text)
        · by_cases hlt : ep < inferTotalFromItems (normalizeAmbiguousItems p.items text) - 0.01
          · refine ⟨hsale, ?_, ep, rfl, htot, hlt⟩
            simp [hsale, htot, hlt]
          · exfalso; apply hchange; simp [hlt]
        · exfalso; apply hchange; simp [htot]
      · exfalso
        apply hchange
        have : (p.intent == "sale") = false := by
          simpa using hsale
        simp [this]

/-- Witness for C3: a `sale` parse of one matcha latte (20 AED) with a
stated payment of 15 resolves to a `debt`. -/
theorem sale_reclassified_to_debt_witness :
    (resolveParsed ⟨"sale", some [⟨"matcha latte", none⟩], none, some 15⟩ "").intent = "debt" :=
  (sale_reclassified_to_debt ⟨"sale", some [⟨"matcha latte", none⟩], none, some 15⟩ "").1
    15 rfl (by with_unfolding_all decide) (by with_unfolding_all decide)
    (by with_unfolding_all decide)

/-- C6 counterexample: the text "paid nothing" matches the zero-payment
phrasing (the heuristic returns exactly 0), yet with a parser-guessed paid
of 5 the resolved explicit paid amount is 5, not 0 — the phrasing does not
override a numeric parser guess. -/
theorem zero_payment_override_cex :
    zeroPaymentPhrase "paid nothing" = true ∧
    extractPaidAmount "paid nothing" = some 0 ∧
    explicitPaidOf (some 5) "paid nothing" = some 5 ∧ (5 : ℚ) ≠ 0 :=
  ⟨by decide, by with_unfolding_all decide, rfl, by norm_num⟩

/-- C6 (amended): for every text matching a "paid nothing" / "no payment"
phrasing, `extractPaidAmount` returns exactly 0, and this becomes the
resolved explicit paid amount whenever the parser supplies no numeric paid
value; a numeric parser-guessed paid value takes precedence and is not
overridden (see the counterexample). -/
theorem zero_payment_phrase_resolves_zero (text : String)
    (h : zeroPaymentPhrase text = true) :
    extractPaidAmount text = some 0 ∧ explicitPaidOf none text = some 0 := by
  constructor <;> simp [extractPaidAmount, explicitPaidOf, h]

/-- Witness for the amended C6 at the text "no payment". -/
theorem zero_payment_phrase_resolves_zero_witness :
    extractPaidAmount "no payment" = some 0 ∧ explicitPaidOf none "no payment" = some 0 :=
  zero_payment_phrase_resolves_zero "no payment" (by decide)

/-- C8: `normalizeAmbiguousItems` maps each item to the `latte` rewrite
exactly when it is named "matcha latte" (lowercased, trimmed) and the raw
text contains the word "latte" but not the word "matcha"; when the lexical
evidence is absent the list is returned unchanged; the spec's example
"sold a latte" rewrites. -/
theorem normalize_matcha_latte (l : List RawItem) (text : String) :
    (normalizeAmbiguousItems (some l) text
      = l.map (fun it =>
          if jsTrim (jsToLower it.name) == "matcha latte"
              && testWord "latte" text && !testWord "matcha" text
          then { it with name := "latte" } else it)) ∧
    ((testWord "latte" text = false ∨ testWord "matcha" text = true) →
      normalizeAmbiguousItems (some l) text = l) ∧
    normalizeAmbiguousItems (some [⟨"matcha latte", some 1⟩]) "sold a latte"
      = [⟨"latte", some 1⟩] := by
  refine ⟨rfl, ?_, by decide⟩
  intro h
  rw [normalizeAmbiguousItems]
  have hid : ∀ it : RawItem,
      (if jsTrim (jsToLower it.name) == "matcha latte"
          && testWord "latte" text && !testWord "matcha" text
       then { it with name := "latte" } else it) = it := by
    intro it
    rcases h with h | h <;> simp [h]
  simp only [hid]
  exact List.map_id l

/-- Witness for C8: with "matcha" present in the text, the item is left
unchanged. -/
theorem normalize_matcha_latte_witness :
    normalizeAmbiguousItems (some [⟨"matcha latte", some 2⟩]) "a matcha latte"
      = [⟨"matcha latte", some 2⟩] :=
  (normalize_matcha_latte [⟨"matcha latte", some 2⟩] "a matcha latte").2.1
    (Or.inr (by decide))

/-- C9 counterexample: two summary recomputations over the same (empty)
sheet data but at different timestamps produce different snapshots — the
"Last Updated" row embeds the wall-clock time. -/
theorem summary_timestamp_cex :
    updateSummaryRows [] [] "2026-10-11" "10:00:00"
      ≠ updateSummaryRows [] [] "2026-10-11" "10:00:05" := by
  with_unfolding_all decide

/-- C9 (amended): apart from the "Last Updated" timestamp row (index 1),
the summary snapshot is a function of the Sales data, the Debts data and
the current date alone, so two recomputations without intervening writes
and on the same date agree on every metric row. -/
theorem summary_data_determined (salesData debtData : List (List String))
    (today n1 n2 : String) :
    (updateSummaryRows salesData debtData today n1).eraseIdx 1
      = (updateSummaryRows salesData debtData today n2).eraseIdx 1 := rfl

end Webhook
